import Mathlib

/-!
Shallow embedding of the hash-table engine of the C-Collection-Map
repository (map.h / map.c, current revision: the copy whose `map_remove`
returns `int` and whose `map_add` calls `value_free` before an in-place
update).

Modelling conventions:
* A bucket slot is the embedded head entry (`key`/`value` pointers, both
  NULL when the slot is empty) plus the overflow chain hanging off `next`.
  We model an occupied head as `some (k, v)` and the overflow chain as a
  `List (K × V)` (overflow nodes are allocated with real key/value blocks,
  so they always carry data).
* `size_t` arithmetic is modelled on `Nat`; the C expression
  `hash % buckets_count` divides by zero when `buckets_count = 0`, so all
  operations that compute a bucket index return `Except MapErr _` and take
  the `divByZero` branch on a zero bucket count.
* Dereferencing a NULL key pointer (which `map_optimize` can feed to
  `map_add`) is the `nullDeref` error.
* The descriptor's `key_free`/`value_free` callbacks are modelled as event
  logs: each operation reports the keys/values it passed to the disposers.
* Heap allocation is assumed to succeed in the main model (the claims that
  use it stipulate success); `mapAddA` below is the same `map_add` code
  with an explicit allocation oracle and pointer states, used to examine
  the allocation-failure paths.
-/

/-- Errors of the total embedding: the `% 0` guard and NULL dereference. -/
inductive MapErr : Type where
  | divByZero : MapErr
  | nullDeref : MapErr
  | useAfterFree : MapErr
  deriving DecidableEq, Repr

/-- Descriptor `MapTypeData`: the descriptor stored in every map.  `key_hash` is the
`size_t (*)(const void *)` callback, `key_cmp` the `int (*)(const void *,
const void *)` callback.  The disposers are modelled by event logs in the
operations' results, and the byte sizes are implicit in `K`, `V`. -/
structure MapTypeData (K V : Type) where
  key_hash : K → Nat
  key_cmp : K → K → Int

/-- One bucket slot: the embedded head entry (`none` when `key` and
`value` are NULL) and the overflow chain reachable through `next`. -/
structure Slot (K V : Type) where
  head : Option (K × V)
  rest : List (K × V)
  deriving Repr

/-- Table `Map`: descriptor, live-entry count `length`, and the bucket array.
`buckets_count` is the length of the bucket list (the C field always
equals the allocated array size). -/
structure Map (K V : Type) where
  type : MapTypeData K V
  length : Nat
  buckets : List (Slot K V)

/-- The empty slot `calloc` produces: all three pointers NULL. -/
def emptySlot {K V : Type} : Slot K V := ⟨none, []⟩

/-- Constructor `map_new`: fills the descriptor (defaults are modelled separately) and
allocates `buckets_count` zeroed slots. -/
def mapNew {K V : Type} (type : MapTypeData K V) (buckets_count : Nat) : Map K V :=
  { type := type, length := 0, buckets := List.replicate buckets_count emptySlot }

/-- The slot at bucket index `i` (always called with `i` < the bucket
count, where it coincides with array indexing). -/
def slotAt {K V : Type} (m : Map K V) (i : Nat) : Slot K V :=
  m.buckets.getD i emptySlot

/-- Result of `map_add`: the return code (`0` inserted, `1` updated,
`-1` allocation failure), the new map, and the values passed to
`value_free` during the call. -/
structure AddResult (K V : Type) where
  ret : Int
  map : Map K V
  disposedValues : List V

/-- The chain walk of `map_add`, started at the occupied head:
`while (node->next != NULL) { if (key_cmp(node->key, key) == 0) {
value_free(node->value); memcpy(node->value, value, ...); return 1; }
node = node->next; }` followed by appending a fresh node at the tail.
Note the loop guard: a node is compared only while it has a successor,
so the last node of the chain is never compared.  Returns the code, the
new chain, and the disposed old values.  (Only ever invoked on nonempty
chains; the `[]` equation is dead code.) -/
def addLoop {K V : Type} (td : MapTypeData K V) (k : K) (v : V) :
    List (K × V) → Int × List (K × V) × List V
  | [] => (0, [(k, v)], [])
  | e :: rest =>
    match rest with
    | [] =>
      -- node->next == NULL: exit the loop without comparing `e`, append.
      (0, [e, (k, v)], [])
    | _ :: _ =>
      if td.key_cmp e.1 k = 0 then
        (1, (e.1, v) :: rest, [e.2])
      else
        let r := addLoop td k v rest
        (r.1, e :: r.2.1, r.2.2)

/-- Rebuild a slot from the chain the walk produced (the walk never
returns an empty chain when given a nonempty one). -/
def Slot.ofChain {K V : Type} : List (K × V) → Slot K V
  | [] => ⟨none, []⟩
  | e :: rest => ⟨some e, rest⟩

/-- Insert `map_add` (current revision, all allocations succeeding):
compute `index = key_hash(key) % buckets_count`; an empty head
(`key == NULL && value == NULL`) takes the fresh-bucket path, otherwise
the chain walk runs. -/
def mapAdd {K V : Type} (m : Map K V) (k : K) (v : V) :
    Except MapErr (AddResult K V) :=
  if m.buckets.length = 0 then .error .divByZero
  else
    let i := m.type.key_hash k % m.buckets.length
    let slot := slotAt m i
    match slot.head with
    | none =>
      -- First time accessing this bucket: allocate and copy, length++.
      -- (`next` is not touched, so the overflow field is preserved.)
      .ok ⟨0, { m with length := m.length + 1,
                       buckets := m.buckets.set i ⟨some (k, v), slot.rest⟩ }, []⟩
    | some e0 =>
      let r := addLoop m.type k v (e0 :: slot.rest)
      .ok ⟨r.1, { m with length := if r.1 = 0 then m.length + 1 else m.length,
                         buckets := m.buckets.set i (Slot.ofChain r.2.1) }, r.2.2⟩

/-- The lookup walk of `map_get` over an occupied chain: return the first
entry whose key compares equal. -/
def getLoop {K V : Type} (td : MapTypeData K V) (k : K) :
    List (K × V) → Option V
  | [] => none
  | e :: rest => if td.key_cmp e.1 k = 0 then some e.2 else getLoop td k rest

/-- Lookup `map_get`: compute the index; an empty head returns NULL immediately
(the overflow field is not consulted), otherwise walk head-first. -/
def mapGet {K V : Type} (m : Map K V) (k : K) : Except MapErr (Option V) :=
  if m.buckets.length = 0 then .error .divByZero
  else
    let slot := slotAt m (m.type.key_hash k % m.buckets.length)
    match slot.head with
    | none => .ok none
    | some e0 => .ok (getLoop m.type k (e0 :: slot.rest))

/-- Result of `map_remove`: return code (`0` removed, `-1` not found),
the new map, and the keys/values passed to the disposers. -/
structure RemoveResult (K V : Type) where
  ret : Int
  map : Map K V
  disposedKeys : List K
  disposedValues : List V

/-- The overflow-chain part of `map_remove`'s walk: find the first
matching entry, unlink it (`prev->next = node->next`), and report it. -/
def removeLoop {K V : Type} (td : MapTypeData K V) (k : K) :
    List (K × V) → Option ((K × V) × List (K × V))
  | [] => none
  | e :: rest =>
    if td.key_cmp e.1 k = 0 then some (e, rest)
    else
      match removeLoop td k rest with
      | some (d, rest') => some (d, e :: rest')
      | none => none

/-- Removal `map_remove` (current revision, returning `int`): walk the chain with
a `prev` pointer, skipping nodes whose key is NULL.  A head match
disposes and frees the head's key/value and promotes the successor
overflow node into the slot (freeing that node); a head match with no
successor empties the slot; an overflow match is unlinked and freed.
`map->length--` is `Nat` subtraction here (a match implies a live entry,
so the count is positive in every reachable state). -/
def mapRemove {K V : Type} (m : Map K V) (k : K) :
    Except MapErr (RemoveResult K V) :=
  if m.buckets.length = 0 then .error .divByZero
  else
    let i := m.type.key_hash k % m.buckets.length
    let slot := slotAt m i
    match slot.head with
    | some (hk, hv) =>
      if m.type.key_cmp hk k = 0 then
        let slot' : Slot K V :=
          match slot.rest with
          | e1 :: rest' => ⟨some e1, rest'⟩  -- *node = *next; free(next);
          | [] => ⟨none, []⟩                 -- node->key = node->value = NULL
        .ok ⟨0, { m with length := m.length - 1,
                         buckets := m.buckets.set i slot' }, [hk], [hv]⟩
      else
        match removeLoop m.type k slot.rest with
        | some ((dk, dv), rest') =>
          .ok ⟨0, { m with length := m.length - 1,
                           buckets := m.buckets.set i ⟨slot.head, rest'⟩ }, [dk], [dv]⟩
        | none => .ok ⟨-1, m, [], []⟩
    | none =>
      -- node->key == NULL: the match condition is false at the head, and
      -- the walk continues into the overflow chain.
      match removeLoop m.type k slot.rest with
      | some ((dk, dv), rest') =>
        .ok ⟨0, { m with length := m.length - 1,
                         buckets := m.buckets.set i ⟨none, rest'⟩ }, [dk], [dv]⟩
      | none => .ok ⟨-1, m, [], []⟩

/-- Per-bucket body of `map_count_collisions`: `node = buckets[i].next;
if (node) { collisions++; while (node->next) { collisions++; node =
node->next; } }` — i.e. the number of overflow nodes of the bucket. -/
def slotCollisions {K V : Type} (s : Slot K V) : Nat :=
  match s.rest with
  | [] => 0
  | _ :: t => 1 + t.length

/-- Collision count `map_count_collisions`: sum of the per-bucket counts. -/
def countCollisions {K V : Type} (m : Map K V) : Nat :=
  (m.buckets.map slotCollisions).sum

/-- The target bucket count of `map_optimize`:
`(size_t)((double)map->length / 0.75)`.  `0.75` is exact in binary
floating point and `length / 0.75 = 4 * length / 3`, whose double
rounding never crosses an integer boundary at table sizes, so the cast
truncation equals `4 * length / 3` in `Nat`. -/
def newBucketsCount (length : Nat) : Nat := 4 * length / 3

/-- One `map_add(new_map, node->key, node->value)` call made by
`map_optimize`'s rebuild loop.  The head node of an empty bucket has
NULL `key`/`value` pointers; `map_add` immediately calls
`key_hash(key)` on them, which dereferences NULL. -/
def optAddNode {K V : Type} (acc : Except MapErr (Map K V))
    (entry : Option (K × V)) : Except MapErr (Map K V) := do
  let m ← acc
  match entry with
  | none => .error .nullDeref
  | some (k, v) =>
    match mapAdd m k v with
    | .ok r => .ok r.map          -- the return code of map_add is ignored
    | .error e => .error e

/-- Rehash `map_optimize` (current revision): build a new map with
`newBucketsCount length` buckets, then for every bucket walk from the
embedded head node (`node = &map->buckets[i]`) through the overflow
chain, calling `map_add(new_map, node->key, node->value)` on every node
— including the heads of empty buckets, whose pointers are NULL.  The
old map's disposers are then nulled and the old map freed (no effect on
the result), and the caller's pointer is replaced by the new map. -/
def mapOptimize {K V : Type} (m : Map K V) : Except MapErr (Map K V) :=
  m.buckets.foldl
    (fun acc slot =>
      let accHead := optAddNode acc slot.head
      slot.rest.foldl (fun a e => optAddNode a (some e)) accHead)
    (.ok (mapNew m.type (newBucketsCount m.length)))

/-! Default strategies (current revision).  Key blocks are modelled as
addresses (`Nat`) into a word memory `mem : Nat → Nat`, since the default
hash dereferences the block while the default compare does not. -/

/-- Default hash `map_default_hash`: `return *(size_t *)key;` — the first machine word
stored in the key block. -/
def map_default_hash (mem : Nat → Nat) (key : Nat) : Nat := mem key

/-- Default compare `map_default_cmp` (current revision): `if (key1 < key2) return -1;
else if (key1 > key2) return 1; else return 0;` — a three-way comparison
of the two `const void *` pointers themselves; the blocks are never
dereferenced. -/
def map_default_cmp (key1 key2 : Nat) : Int :=
  if key1 < key2 then -1 else if key2 < key1 then 1 else 0

/-- A memory in which every word is 42: two distinct key blocks with
equal contents. -/
def constMem : Nat → Nat := fun _ => 42

/-! Allocation-aware `map_add` for the failure paths.  Pointer fields of
the embedded head are given explicit states: NULL, live, or dangling
(freed but still stored). -/

/-- A C pointer field: NULL, pointing at a live block holding `a`, or
left pointing at a block that has been freed. -/
inductive Ptr (A : Type) : Type where
  | null : Ptr A
  | live : A → Ptr A
  | dangling : Ptr A
  deriving DecidableEq, Repr

/-- Head of a bucket with explicit pointer states. -/
structure HeadA (K V : Type) where
  key : Ptr K
  value : Ptr V
  deriving DecidableEq, Repr

/-- Bucket slot with explicit head pointer states. -/
structure SlotA (K V : Type) where
  head : HeadA K V
  rest : List (K × V)
  deriving DecidableEq, Repr

/-- Map over pointer-state slots. -/
structure MapA (K V : Type) where
  type : MapTypeData K V
  length : Nat
  buckets : List (SlotA K V)

/-- Constructor `map_new` in the pointer-state model. -/
def mapNewA {K V : Type} (type : MapTypeData K V) (buckets_count : Nat) : MapA K V :=
  { type := type, length := 0,
    buckets := List.replicate buckets_count ⟨⟨.null, .null⟩, []⟩ }

/-- Insert `map_add` with an allocation oracle (`true` = the next `malloc`
succeeds).  This is the same code as `mapAdd`, with every `malloc` and
every failure path made explicit.  The fresh-bucket path is:
`node->key = malloc(key_size); if (!node->key) return -1;
node->value = malloc(value_size); if (!node->value) { free(node->key);
return -1; }` — on the second failure `node->key` is freed but the slot
still stores the pointer.  The overflow-append path allocates the node,
its key block and its value block, and frees everything allocated so far
on each failure. -/
def mapAddA {K V : Type} (m : MapA K V) (k : K) (v : V) (alloc : List Bool) :
    Except MapErr (Int × MapA K V) :=
  if m.buckets.length = 0 then .error .divByZero
  else
    let i := m.type.key_hash k % m.buckets.length
    let slot := m.buckets.getD i ⟨⟨.null, .null⟩, []⟩
    match slot.head.key, slot.head.value with
    | .null, .null =>
      -- fresh-bucket path: two allocations
      match alloc.getD 0 true with
      | false => .ok (-1, m)
      | true =>
        match alloc.getD 1 true with
        | false =>
          -- free(node->key); return -1;  -- node->key keeps the freed address
          .ok (-1, { m with buckets := m.buckets.set i ⟨⟨.dangling, .null⟩, slot.rest⟩ })
        | true =>
          .ok (0, { m with length := m.length + 1,
                           buckets := m.buckets.set i ⟨⟨.live k, .live v⟩, slot.rest⟩ })
    | .live hk, .live hv =>
      -- occupied head: the same chain walk as mapAdd, then a three-
      -- allocation append at the tail
      let r := addLoop m.type k v ((hk, hv) :: slot.rest)
      if r.1 = 1 then
        let slot' : SlotA K V :=
          match r.2.1 with
          | [] => ⟨⟨.null, .null⟩, []⟩
          | e :: rest' => ⟨⟨.live e.1, .live e.2⟩, rest'⟩
        .ok (1, { m with buckets := m.buckets.set i slot' })
      else
        -- append path: malloc(node), malloc(key), malloc(value); each
        -- failure frees what was allocated for the attempt and returns
        -- -1 with the table untouched
        if alloc.getD 0 true = false then .ok (-1, m)
        else if alloc.getD 1 true = false then .ok (-1, m)
        else if alloc.getD 2 true = false then .ok (-1, m)
        else
          .ok (0, { m with length := m.length + 1,
                           buckets := m.buckets.set i
                             ⟨⟨.live hk, .live hv⟩, slot.rest ++ [(k, v)]⟩ })
    | _, _ =>
      -- a half-NULL or dangling head: the C code reads the freed or NULL
      -- key block during the chain walk
      .error .useAfterFree

/-! Well-formedness and reachability. -/

/-- A slot is well formed when an empty head (`key == NULL && value ==
NULL`) has a NULL overflow link. -/
def WfSlot {K V : Type} (s : Slot K V) : Prop := s.head = none → s.rest = []

/-- A map is well formed when every slot is. -/
def Wf {K V : Type} (m : Map K V) : Prop := ∀ s ∈ m.buckets, WfSlot s

/-- The tables reachable through the public constructor and mutators. -/
inductive Reach {K V : Type} (td : MapTypeData K V) : Map K V → Prop where
  | new : ∀ n, Reach td (mapNew td n)
  | add : ∀ m k v r, Reach td m → mapAdd m k v = .ok r → Reach td r.map
  | rem : ∀ m k r, Reach td m → mapRemove m k = .ok r → Reach td r.map

/-! Concrete instances used in the evaluation theorems. -/

/-- A descriptor for `Nat` keys and values: the key itself as hash, a
subtraction compare (`0` exactly on equal keys). -/
def natTD : MapTypeData Nat Nat :=
  { key_hash := fun k => k, key_cmp := fun a b => (a : Int) - b }

/-- Run `mapAdd` and keep the resulting map (plumbing for building
concrete tables in the evaluation theorems). -/
def addStep (m : Map Nat Nat) (k v : Nat) : Map Nat Nat :=
  match mapAdd m k v with
  | .ok r => r.map
  | .error _ => m

/-- All keys stored in the table, bucket by bucket, head first. -/
def allKeys {K V : Type} (m : Map K V) : List K :=
  m.buckets.flatMap fun s =>
    (match s.head with | some e => [e.1] | none => []) ++ s.rest.map (·.1)

/-! Helper lemmas shared by the claim theorems. -/

/-- The chain of a slot: the head entry (when occupied) followed by the
overflow entries, in walk order. -/
def chainOf {K V : Type} (s : Slot K V) : List (K × V) :=
  (match s.head with | some e => [e] | none => []) ++ s.rest

/-- The number of live entries in a slot's chain. -/
def chainLen {K V : Type} (s : Slot K V) : Nat := (chainOf s).length

lemma slotAt_set_self {K V : Type} (m : Map K V) (len : Nat) (i : Nat)
    (s' : Slot K V) (h : i < m.buckets.length) :
    slotAt { m with length := len, buckets := m.buckets.set i s' } i = s' := by
  simp [slotAt, List.getD_eq_getElem?_getD, List.getElem?_set, h]

lemma slotAt_set_ne {K V : Type} (m : Map K V) (len : Nat) (i j : Nat)
    (s' : Slot K V) (h : j ≠ i) :
    slotAt { m with length := len, buckets := m.buckets.set i s' } j = slotAt m j := by
  simp [slotAt, List.getD_eq_getElem?_getD, List.getElem?_set, Ne.symm h]

lemma slotAt_mem {K V : Type} (m : Map K V) (i : Nat) (h : i < m.buckets.length) :
    slotAt m i ∈ m.buckets := by
  simp only [slotAt, List.getD_eq_getElem?_getD, List.getElem?_eq_getElem h,
    Option.getD_some]
  exact List.getElem_mem h

lemma chainOf_ofChain {K V : Type} (l : List (K × V)) (h : l ≠ []) :
    chainOf (Slot.ofChain l) = l := by
  cases l with
  | nil => exact absurd rfl h
  | cons e rest => simp [Slot.ofChain, chainOf]

lemma addLoop_chain_ne_nil {K V : Type} (td : MapTypeData K V) (k : K) (v : V) :
    ∀ es : List (K × V), (addLoop td k v es).2.1 ≠ [] := by
  intro es
  induction es with
  | nil => simp [addLoop]
  | cons e rest ih =>
    cases rest with
    | nil => simp [addLoop]
    | cons e2 r2 =>
      simp only [addLoop]
      split
      · simp
      · simp

lemma addLoop_nil {K V : Type} (td : MapTypeData K V) (k : K) (v : V) :
    addLoop td k v [] = (0, [(k, v)], []) := rfl

lemma addLoop_single {K V : Type} (td : MapTypeData K V) (k : K) (v : V)
    (e : K × V) : addLoop td k v [e] = (0, [e, (k, v)], []) := rfl

lemma addLoop_cons_cons {K V : Type} (td : MapTypeData K V) (k : K) (v : V)
    (e e2 : K × V) (r2 : List (K × V)) :
    addLoop td k v (e :: e2 :: r2) =
      if td.key_cmp e.1 k = 0 then (1, (e.1, v) :: e2 :: r2, [e.2])
      else ((addLoop td k v (e2 :: r2)).1,
            e :: (addLoop td k v (e2 :: r2)).2.1,
            (addLoop td k v (e2 :: r2)).2.2) := rfl

lemma addLoop_ret1 {K V : Type} (td : MapTypeData K V) (k : K) (v : V) :
    ∀ (es es' : List (K × V)) (d : List V), addLoop td k v es = (1, es', d) →
      ∃ j kj old, es.get? j = some (kj, old) ∧ td.key_cmp kj k = 0 ∧
        es' = es.set j (kj, v) ∧ d = [old] := by
  intro es
  induction es with
  | nil =>
    intro es' d h
    rw [addLoop_nil] at h
    injection h with h1 h2
    exact absurd h1 (by decide)
  | cons e rest ih =>
    intro es' d h
    cases rest with
    | nil =>
      rw [addLoop_single] at h
      injection h with h1 h2
      exact absurd h1 (by decide)
    | cons e2 r2 =>
      rw [addLoop_cons_cons] at h
      split at h
      · rename_i hc
        injection h with h1 h2
        injection h2 with h2 h3
        exact ⟨0, e.1, e.2, rfl, hc, h2.symm, h3.symm⟩
      · rename_i hc
        injection h with h1 h2
        injection h2 with h2 h3
        obtain ⟨j, kj, old, hget, hcmp, hset, hd⟩ := ih _ _ (by rw [← h1])
        refine ⟨j + 1, kj, old, hget, hcmp, ?_, h3 ▸ hd⟩
        rw [← h2, hset]
        rfl

lemma addLoop_ret_ne1 {K V : Type} (td : MapTypeData K V) (k : K) (v : V) :
    ∀ es : List (K × V), (addLoop td k v es).1 ≠ 1 →
      (addLoop td k v es).2.2 = [] ∧
      (addLoop td k v es).1 = 0 ∧
      (addLoop td k v es).2.1 = es ++ [(k, v)] := by
  intro es
  induction es with
  | nil => intro _; exact ⟨rfl, rfl, rfl⟩
  | cons e rest ih =>
    cases rest with
    | nil => intro _; exact ⟨rfl, rfl, rfl⟩
    | cons e2 r2 =>
      intro hne
      rw [addLoop_cons_cons] at hne ⊢
      split at hne
      · exact absurd rfl hne
      · rename_i hc
        rw [if_neg hc]
        obtain ⟨hd, hr, hl⟩ := ih hne
        exact ⟨hd, hr, by rw [hl]; rfl⟩

/-! Concrete tables used by the evaluation and witness theorems. -/

/-- A one-bucket table holding key 5 with value 1 (built through the
public constructor and insert). -/
def c2Map : Map Nat Nat := addStep (mapNew natTD 1) 5 1

/-- A one-bucket table after inserting key 7 twice (values 3 then 4). -/
def c3Map : Map Nat Nat := addStep (addStep (mapNew natTD 1) 7 3) 7 4

/-- A two-bucket table holding the single entry (0, 10); its second
bucket is empty. -/
def c1Map : Map Nat Nat := addStep (mapNew natTD 2) 0 10

/-- A one-bucket table whose chain is head (2, 10) followed by the
overflow entry (4, 20). -/
def c4Map : Map Nat Nat := addStep (addStep (mapNew natTD 1) 2 10) 4 20

/-- The result record of updating key 2 (to value 99) in `c4Map`. -/
def c5Res : AddResult Nat Nat :=
  match mapAdd c4Map 2 99 with
  | .ok r => r
  | .error _ => ⟨-1, c4Map, []⟩

/-- An empty one-bucket table in the pointer-state model. -/
def c6Map : MapA Nat Nat := mapNewA natTD 1

/-- C1: the claim says that after `Optimize` replaces the table, every key
live before with value v is retrievable with value v on the replacement,
built by re-inserting every live entry via `Insert`.  The code violates
this: `map_optimize`'s rebuild loop starts each bucket walk at the
embedded head node (`node = &map->buckets[i]`) and calls
`map_add(new_map, node->key, node->value)` even when that head is an
empty slot whose `key`/`value` pointers are NULL, so `key_hash`
dereferences NULL.  On a two-bucket table with one live, retrievable
entry `(0, 10)`, optimization hits the NULL dereference and no
replacement table is produced.  (In the other revision of `map_optimize`
in the repository, the walk starts at `buckets[i].next` instead and
every bucket-head entry is silently dropped from the rebuilt table.) -/
theorem c1_optimize_null_deref_eval :
    mapGet c1Map 0 = .ok (some 10) ∧ c1Map.length = 1 ∧
    mapOptimize c1Map = .error .nullDeref := ⟨rfl, rfl, rfl⟩

/-- C2: the claim says `Insert(k, v2)` after `Insert(k, v1)` returns
`Updated`, leaves `length` unchanged, and makes `Lookup(k)` return `v2`,
for every position of k in its chain.  The code violates this when k's
entry is the last of its chain (here: the only entry): the walk
`while (node->next != NULL)` compares a node only while it has a
successor, so the second insert of key 5 compares nothing, appends a
duplicate overflow node, returns 0 (Inserted), grows `length` to 2, and
`Lookup(5)` still returns the old value 1. -/
theorem c2_duplicate_insert_eval :
    ∃ r, mapAdd c2Map 5 2 = .ok r ∧ r.ret = 0 ∧ r.map.length = 2 ∧
      mapGet r.map 5 = .ok (some 1) ∧ allKeys r.map = [5, 5] :=
  ⟨_, rfl, rfl, rfl, rfl, rfl⟩

/-- C3: the claim says `length` always equals the number of distinct live
keys.  The code violates it: inserting key 7 twice into a fresh
one-bucket table stores the key twice (the `map_add` walk never compares
the last chain entry) and leaves `length = 2` although only one distinct
key is present. -/
theorem c3_length_distinct_eval :
    c3Map.length = 2 ∧ allKeys c3Map = [7, 7] ∧ (allKeys c3Map).dedup = [7] :=
  ⟨rfl, rfl, by decide⟩

/-- C6: the claim says a failed allocation during `Insert` leaves the
table exactly as before, in particular an empty slot empty again with no
dangling pointer.  The code violates this on the fresh-bucket path: when
`malloc(key_size)` succeeds and `malloc(value_size)` fails, `map_add`
frees the key block but leaves `node->key` pointing at it, so the slot
ends with a dangling key pointer and NULL value pointer — no longer the
empty slot, and later operations treat the bucket as occupied.  The
oracle `[true, false]` makes the first allocation succeed and the second
fail. -/
theorem c6_alloc_failure_dangling_eval :
    ∃ m', mapAddA c6Map 5 9 [true, false] = .ok (-1, m') ∧
      (m'.buckets.getD 0 ⟨⟨.null, .null⟩, []⟩).head.key = Ptr.dangling ∧
      m'.buckets ≠ c6Map.buckets :=
  ⟨_, rfl, rfl, by decide⟩

/-- C8 counterexample: the claim says the default `equals` three-way
compares the dereferenced first machine words, returning 0 whenever the
two key blocks store equal words.  The current `map_default_cmp`
compares the `const void *` pointers themselves: with a memory whose
every word is 42, the blocks at addresses 8 and 16 store equal words
(the default hash reads 42 from both) yet `map_default_cmp 8 16 = -1`. -/
theorem c8_default_cmp_counterexample :
    ¬ ∀ (mem : Nat → Nat) (p q : Nat),
        map_default_hash mem p = map_default_hash mem q →
          map_default_cmp p q = 0 := by
  intro h
  have h42 := h constMem 8 16 rfl
  exact absurd h42 (by decide)

/-- C8 amended: `map_default_hash` returns the first machine word stored
in the key block, and `map_default_cmp` is a three-way comparison of the
key block addresses themselves (never dereferencing): it returns 0 iff
the two addresses are equal, -1 when the first is lower, 1 when it is
higher. -/
theorem c8_default_strategies_amended (mem : Nat → Nat) (p q : Nat) :
    map_default_hash mem p = mem p ∧
    (map_default_cmp p q = 0 ↔ p = q) ∧
    (p < q → map_default_cmp p q = -1) ∧
    (q < p → map_default_cmp p q = 1) := by
  refine ⟨rfl, ?_, ?_, ?_⟩ <;> unfold map_default_cmp <;>
    split <;> rename_i h1
  · omega
  · split <;> rename_i h2 <;> omega
  · omega
  · split <;> rename_i h2 <;> omega
  · omega
  · split <;> rename_i h2 <;> omega

/-- C8 witness: the amended statement at memory `constMem` and the
concrete addresses 3 and 5. -/
theorem c8_default_strategies_amended_witness :
    map_default_hash constMem 3 = constMem 3 ∧ map_default_cmp 3 5 = -1 :=
  ⟨(c8_default_strategies_amended constMem 3 5).1,
   (c8_default_strategies_amended constMem 3 5).2.2.1 (by decide)⟩

/-- C10: optimizing a table with `length = 0` computes the target bucket
count `floor(0 / 0.75) = 0`; `map_new` accepts a zero bucket count, so
the replacement table has `bucket_count = 0`, and every subsequent
`Insert`, `Lookup` or `Remove` on it computes `key_hash(key) %
buckets_count` with a zero divisor — the division guard's error branch
of the total embedding, reached here through the public interface
(construct with zero buckets, optimize, then operate). -/
theorem c10_zero_bucket_div_guard {K V : Type} (td : MapTypeData K V)
    (k : K) (v : V) :
    (mapNew td 0).length = 0 ∧
    newBucketsCount (mapNew td (0 : Nat)).length = 0 ∧
    mapOptimize (mapNew td 0) = .ok (mapNew td 0) ∧
    (mapNew td 0).buckets.length = 0 ∧
    mapAdd (mapNew td 0) k v = .error .divByZero ∧
    mapGet (mapNew td 0) k = .error .divByZero ∧
    mapRemove (mapNew td 0) k = .error .divByZero := by
  have h0 : newBucketsCount 0 = 0 := by decide
  refine ⟨rfl, h0, ?_, rfl, rfl, rfl, rfl⟩
  unfold mapOptimize
  simp [mapNew, h0]

/-- C5: on every `Insert` that takes the update path (return code 1), the
descriptor's `dispose_value` is invoked on the old stored value of the
matched entry and the entry's value is overwritten in place with the new
value; no other `map_add` path invokes or skips a disposal — a non-update
result disposes nothing. -/
theorem map_add_update_disposes {K V : Type} (m : Map K V) (k : K) (v : V)
    (r : AddResult K V) (hok : mapAdd m k v = .ok r) :
    (r.ret = 1 → ∃ j kj old,
        (chainOf (slotAt m (m.type.key_hash k % m.buckets.length))).get? j =
          some (kj, old) ∧
        m.type.key_cmp kj k = 0 ∧
        r.disposedValues = [old] ∧
        chainOf (slotAt r.map (m.type.key_hash k % m.buckets.length)) =
          (chainOf (slotAt m (m.type.key_hash k % m.buckets.length))).set j (kj, v) ∧
        r.map.length = m.length) ∧
    (r.ret ≠ 1 → r.disposedValues = []) := by
  unfold mapAdd at hok
  split at hok
  · exact Except.noConfusion hok
  · rename_i hbc
    simp only [] at hok
    split at hok
    · rename_i heq
      rw [Except.ok.injEq] at hok
      subst hok
      refine ⟨fun h1 => absurd h1 (by simp), fun _ => rfl⟩
    · rename_i e0 heq
      rw [Except.ok.injEq] at hok
      subst hok
      have hlt : m.type.key_hash k % m.buckets.length < m.buckets.length :=
        Nat.mod_lt _ (Nat.pos_of_ne_zero hbc)
      constructor
      · intro h1
        simp only at h1
        obtain ⟨j, kj, old, hget, hcmp, hset, hd⟩ :=
          addLoop_ret1 m.type k v (e0 :: (slotAt m (m.type.key_hash k % m.buckets.length)).rest)
            _ _ (by rw [← h1])
        refine ⟨j, kj, old, ?_, hcmp, hd, ?_, ?_⟩
        · rw [show chainOf (slotAt m (m.type.key_hash k % m.buckets.length)) =
            e0 :: (slotAt m (m.type.key_hash k % m.buckets.length)).rest from by
              simp [chainOf, heq]]
          exact hget
        · rw [show chainOf (slotAt m (m.type.key_hash k % m.buckets.length)) =
            e0 :: (slotAt m (m.type.key_hash k % m.buckets.length)).rest from by
              simp [chainOf, heq]]
          simp only
          rw [slotAt_set_self _ _ _ _ hlt,
            chainOf_ofChain _ (addLoop_chain_ne_nil m.type k v _), hset]
        · simp only
          rw [if_neg (by rw [h1]; decide)]
      · intro hne
        simp only at hne ⊢
        exact (addLoop_ret_ne1 m.type k v _ hne).1

/-- C5 witness: updating key 2 in the table whose bucket-0 chain is
(2, 10), (4, 20) disposes the old value 10 and writes 99 in place. -/
theorem map_add_update_disposes_witness :
    ∃ j kj old,
      (chainOf (slotAt c4Map (c4Map.type.key_hash 2 % c4Map.buckets.length))).get? j =
        some (kj, old) ∧
      c4Map.type.key_cmp kj 2 = 0 ∧
      c5Res.disposedValues = [old] ∧
      chainOf (slotAt c5Res.map (c4Map.type.key_hash 2 % c4Map.buckets.length)) =
        (chainOf (slotAt c4Map (c4Map.type.key_hash 2 % c4Map.buckets.length))).set j (kj, 99) ∧
      c5Res.map.length = c4Map.length :=
  (map_add_update_disposes c4Map 2 99 c5Res rfl).1 rfl

/-- C4: removing a key that matches an occupied chain head with a
successor overflow entry returns 0, disposes exactly the matched head's
own key and value, copies the successor's key/value/link into the head
slot (promotion) and drops the redundant overflow node, decrements
`length` by one, leaves every other bucket untouched, leaves the lookup
of every key other than the removed one unchanged, and keeps the
promoted former successor retrievable with its unchanged value. -/
theorem map_remove_head_promotes {K V : Type} (m : Map K V) (k hk : K)
    (hv : V) (k2 : K) (v2 : V) (rest' : List (K × V))
    (hbc : m.buckets.length ≠ 0)
    (hslot : slotAt m (m.type.key_hash k % m.buckets.length) =
      ⟨some (hk, hv), (k2, v2) :: rest'⟩)
    (hmatch : m.type.key_cmp hk k = 0) :
    ∃ r, mapRemove m k = .ok r ∧ r.ret = 0 ∧
      slotAt r.map (m.type.key_hash k % m.buckets.length) =
        ⟨some (k2, v2), rest'⟩ ∧
      r.map.length = m.length - 1 ∧
      r.disposedKeys = [hk] ∧ r.disposedValues = [hv] ∧
      (∀ j, j ≠ m.type.key_hash k % m.buckets.length →
        slotAt r.map j = slotAt m j) ∧
      (∀ k', m.type.key_cmp hk k' ≠ 0 → mapGet r.map k' = mapGet m k') ∧
      (m.type.key_cmp k2 k2 = 0 →
        m.type.key_hash k2 % m.buckets.length = m.type.key_hash k % m.buckets.length →
        mapGet r.map k2 = .ok (some v2)) := by
  have hlt : m.type.key_hash k % m.buckets.length < m.buckets.length :=
    Nat.mod_lt _ (Nat.pos_of_ne_zero hbc)
  have hrm : mapRemove m k =
      .ok ⟨0, { m with length := m.length - 1,
                       buckets := m.buckets.set (m.type.key_hash k % m.buckets.length)
                         ⟨some (k2, v2), rest'⟩ }, [hk], [hv]⟩ := by
    unfold mapRemove
    rw [if_neg hbc]
    simp only [hslot, hmatch, if_pos]
  refine ⟨_, hrm, rfl, ?_, rfl, rfl, rfl, ?_, ?_, ?_⟩
  · exact slotAt_set_self m _ _ _ hlt
  · intro j hj
    exact slotAt_set_ne m _ _ _ _ hj
  · intro k' hk'
    unfold mapGet
    dsimp only
    rw [List.length_set, if_neg hbc, if_neg hbc]
    by_cases hj : m.type.key_hash k' % m.buckets.length =
        m.type.key_hash k % m.buckets.length
    · rw [hj, slotAt_set_self m _ _ _ hlt, hslot]
      dsimp only
      conv_rhs => rw [getLoop]
      dsimp only
      rw [if_neg hk']
    · rw [slotAt_set_ne m _ _ _ _ hj]
  · intro hrefl hsame
    unfold mapGet
    dsimp only
    rw [List.length_set, if_neg hbc, hsame, slotAt_set_self m _ _ _ hlt]
    dsimp only
    rw [getLoop]
    dsimp only
    rw [if_pos hrefl]

/-- C4 witness: on the one-bucket table whose chain is head (2, 10)
followed by overflow (4, 20), removing key 2 promotes (4, 20) into the
head slot, disposes key 2 and value 10, and keeps (4, 20) retrievable. -/
theorem map_remove_head_promotes_witness :
    ∃ r, mapRemove c4Map 2 = .ok r ∧ r.ret = 0 ∧
      slotAt r.map (c4Map.type.key_hash 2 % c4Map.buckets.length) =
        ⟨some (4, 20), []⟩ ∧
      r.map.length = c4Map.length - 1 ∧
      r.disposedKeys = [2] ∧ r.disposedValues = [10] ∧
      (∀ j, j ≠ c4Map.type.key_hash 2 % c4Map.buckets.length →
        slotAt r.map j = slotAt c4Map j) ∧
      (∀ k', c4Map.type.key_cmp 2 k' ≠ 0 → mapGet r.map k' = mapGet c4Map k') ∧
      (c4Map.type.key_cmp 4 4 = 0 →
        c4Map.type.key_hash 4 % c4Map.buckets.length =
          c4Map.type.key_hash 2 % c4Map.buckets.length →
        mapGet r.map 4 = .ok (some 20)) :=
  map_remove_head_promotes c4Map 2 2 10 4 20 [] (by decide) rfl (by decide)

/-- Pointwise form of the collision count: a well-formed slot contributes
its chain length minus one (`Nat` subtraction realises `max(0, len-1)`). -/
lemma slotCollisions_wf {K V : Type} (s : Slot K V) (h : WfSlot s) :
    slotCollisions s = chainLen s - 1 := by
  rcases s with ⟨head, rest⟩
  cases head with
  | none =>
    have hrest : rest = [] := h rfl
    subst hrest
    rfl
  | some e =>
    cases rest with
    | nil => rfl
    | cons e2 t =>
      simp [slotCollisions, chainLen, chainOf]
      omega

instance {K V : Type} [DecidableEq K] [DecidableEq V] (s : Slot K V) :
    Decidable (WfSlot s) :=
  inferInstanceAs (Decidable (s.head = none → s.rest = []))

instance {K V : Type} [DecidableEq K] [DecidableEq V] (m : Map K V) :
    Decidable (Wf m) :=
  inferInstanceAs (Decidable (∀ s ∈ m.buckets, WfSlot s))

/-- C7: on well-formed tables (an empty head has no overflow chain, which
holds in every reachable table), `map_count_collisions` returns the sum
over all buckets of `max(0, chain length - 1)` — each entry beyond a
bucket's head counts once — and a table with at most one entry per
bucket reports zero collisions. -/
theorem count_collisions_spec {K V : Type} (m : Map K V) (h : Wf m) :
    countCollisions m = (m.buckets.map (fun s => chainLen s - 1)).sum ∧
    ((∀ s ∈ m.buckets, chainLen s ≤ 1) → countCollisions m = 0) := by
  constructor
  · unfold countCollisions
    congr 1
    exact List.map_congr_left fun s hs => slotCollisions_wf s (h s hs)
  · intro hle
    unfold countCollisions
    apply List.sum_eq_zero
    intro x hx
    obtain ⟨s, hs, rfl⟩ := List.mem_map.mp hx
    have hc := hle s hs
    rw [slotCollisions_wf s (h s hs)]
    omega

/-- C7 witness: the one-bucket table with chain (2, 10), (4, 20) is
well formed and reports one collision, the sum of its chain lengths
minus one per bucket. -/
theorem count_collisions_spec_witness :
    countCollisions c4Map = (c4Map.buckets.map (fun s => chainLen s - 1)).sum :=
  (count_collisions_spec c4Map (by decide)).1

/-- C9: in every table reachable through `map_new`, `map_add` and
`map_remove`, a bucket head whose key and value pointers are both NULL
has a NULL overflow link — an empty slot never heads a non-empty chain,
so `map_get`'s early return on an empty head and `map_add`'s fresh-bucket
treatment of such a head never skip or orphan live overflow entries. -/
theorem reach_empty_head_no_overflow {K V : Type} (td : MapTypeData K V)
    (m : Map K V) (h : Reach td m) : Wf m := by
  induction h with
  | new n =>
    intro s hs
    rw [List.eq_of_mem_replicate hs]
    intro _
    rfl
  | add m k v r hm hok ih =>
    unfold mapAdd at hok
    split at hok
    · exact Except.noConfusion hok
    · rename_i hbc
      simp only [] at hok
      split at hok
      · rename_i heq
        rw [Except.ok.injEq] at hok
        subst hok
        intro s hs
        rcases List.mem_or_eq_of_mem_set hs with hmem | rfl
        · exact ih s hmem
        · intro habs
          exact Option.noConfusion habs
      · rename_i e0 heq
        rw [Except.ok.injEq] at hok
        subst hok
        intro s hs
        rcases List.mem_or_eq_of_mem_set hs with hmem | rfl
        · exact ih s hmem
        · rcases hchain : (addLoop m.type k v
              (e0 :: (slotAt m (m.type.key_hash k % m.buckets.length)).rest)).2.1 with
            _ | ⟨c, cr⟩
          · exact absurd hchain (addLoop_chain_ne_nil m.type k v _)
          · simp only [hchain, Slot.ofChain]
            intro habs
            exact Option.noConfusion habs
  | rem m k r hm hok ih =>
    unfold mapRemove at hok
    split at hok
    · exact Except.noConfusion hok
    · rename_i hbc
      simp only [] at hok
      split at hok
      · rename_i hk0 hv0 heq
        split at hok
        · rename_i hcmp
          split at hok
          · rename_i e1 rest' hrest
            rw [Except.ok.injEq] at hok
            subst hok
            intro s hs
            rcases List.mem_or_eq_of_mem_set hs with hmem | rfl
            · exact ih s hmem
            · intro habs
              exact Option.noConfusion habs
          · rename_i hrest
            rw [Except.ok.injEq] at hok
            subst hok
            intro s hs
            rcases List.mem_or_eq_of_mem_set hs with hmem | rfl
            · exact ih s hmem
            · intro _
              rfl
        · rename_i hcmp
          split at hok
          · rename_i dk dv rest' hrl
            rw [Except.ok.injEq] at hok
            subst hok
            intro s hs
            rcases List.mem_or_eq_of_mem_set hs with hmem | rfl
            · exact ih s hmem
            · intro habs
              rw [heq] at habs
              exact Option.noConfusion habs
          · rw [Except.ok.injEq] at hok
            subst hok
            exact ih
      · rename_i heq
        split at hok
        · rename_i dk dv rest' hrl
          rw [Except.ok.injEq] at hok
          subst hok
          intro s hs
          rcases List.mem_or_eq_of_mem_set hs with hmem | rfl
          · exact ih s hmem
          · have hwf := ih (slotAt m (m.type.key_hash k % m.buckets.length))
              (slotAt_mem m _ (Nat.mod_lt _ (Nat.pos_of_ne_zero hbc)))
            have hrest := hwf heq
            rw [hrest] at hrl
            exact absurd hrl (by simp [removeLoop])
        · rw [Except.ok.injEq] at hok
          subst hok
          exact ih

/-- C9 witness: a table reached by constructing with two buckets and
inserting one entry satisfies the invariant. -/
theorem reach_empty_head_no_overflow_witness :
    Wf (addStep (mapNew natTD 2) 3 7) :=
  reach_empty_head_no_overflow natTD _
    (Reach.add (mapNew natTD 2) 3 7 ⟨0, addStep (mapNew natTD 2) 3 7, []⟩
      (Reach.new 2) rfl)
